import Mathlib

/-!
Verification of the AtomicLock spinlock (src/AtomicLock.h).

The lock state is a single atomic boolean: `LOCKED = true`, `UNLOCKED = false`.
We embed the four methods (`lock`, `unlock`, `try_lock`, `wait`), the
constructor and the destructor as pure functions over that boolean.  The
spinning methods (`lock`, `wait`) are embedded with explicit fuel, and the
atomic compare-exchange is modelled as a function returning the success flag
and the new cell value.

For the concurrency claims we additionally give a small-step interleaving
model: each method body is compiled to a thread machine whose single step is
one atomic access of the source, and the shared cell evolves by an arbitrary
interleaving of thread steps and environment actions.
-/

/-- Lock state constant, mirroring `const bool UNLOCKED = false` in the source. -/
def UNLOCKED : Bool := false

/-- Lock state constant, mirroring `const bool LOCKED = true` in the source. -/
def LOCKED : Bool := true

/-- The AtomicLock class: its only member is the atomic boolean `ThisLock`
holding the lock state (LOCKED or UNLOCKED). -/
structure AtomicLock where
  ThisLock : Bool
deriving DecidableEq, Repr

/-- C++11 `compare_exchange_strong` on an atomic bool whose current value is
`s`: if `s` equals `expected` the cell is set to `desired` and the call
succeeds, otherwise the cell is unchanged and the call fails.  Returns
(success flag, new cell value). -/
def compare_exchange_strong (s expected desired : Bool) : Bool × Bool :=
  if s = expected then (true, desired) else (false, s)

namespace AtomicLock

/-- The AtomicLock constructor: `AtomicLock() : ThisLock(UNLOCKED) {}`. -/
def construct : AtomicLock := ⟨UNLOCKED⟩

/-- `AtomicLock::try_lock`: first load the state; the short-circuit `&&`
returns false at once when the load sees LOCKED; otherwise attempt one CAS
from UNLOCKED to LOCKED and return its success flag.  Result: (return value,
lock after the call). -/
def try_lock (l : AtomicLock) : Bool × AtomicLock :=
  if l.ThisLock then (false, l)
  else
    let cas := compare_exchange_strong l.ThisLock UNLOCKED LOCKED
    (cas.1, ⟨cas.2⟩)

/-- `AtomicLock::unlock`: unconditionally store UNLOCKED into the cell. -/
def unlock (_l : AtomicLock) : AtomicLock := ⟨UNLOCKED⟩

/-- The AtomicLock destructor `~AtomicLock() { unlock(); }`. -/
def destructor (l : AtomicLock) : AtomicLock := unlock l

/-- `AtomicLock::lock` with explicit fuel bounding the number of loop
iterations (the source loops without bound).  Each iteration loads the state;
if it is free a CAS from UNLOCKED to LOCKED is attempted, and the method
returns on CAS success; otherwise it yields and retries.  `none` means the
fuel ran out while spinning. -/
def lockFuel : Nat → AtomicLock → Option AtomicLock
  | 0, _ => none
  | n + 1, l =>
    if l.ThisLock then lockFuel n l
    else
      let cas := compare_exchange_strong l.ThisLock UNLOCKED LOCKED
      if cas.1 then some ⟨cas.2⟩ else lockFuel n ⟨cas.2⟩

end AtomicLock

/-- One atomic access to the lock cell, as performed by the source methods:
a plain load, the CAS from UNLOCKED to LOCKED used by `lock`/`try_lock`, or
the unconditional store of UNLOCKED used by `unlock`. -/
inductive MemAction where
  | load
  | cas_acquire
  | store_unlock
deriving DecidableEq, Repr

/-- Effect of one atomic access on the cell value. -/
def applyAction : Bool → MemAction → Bool
  | s, MemAction.load => s
  | s, MemAction.cas_acquire => (compare_exchange_strong s UNLOCKED LOCKED).2
  | _, MemAction.store_unlock => UNLOCKED

/-- Cell value just before position `i` of the access trace `acts`, starting
from `s0`. -/
def stateAt (s0 : Bool) (acts : List MemAction) (i : Nat) : Bool :=
  (acts.take i).foldl applyAction s0

/-- Position `i` of the trace is a successful acquire: it is the CAS from
UNLOCKED to LOCKED and the cell holds UNLOCKED there, so the CAS wins and the
cell performs the FREE to HELD transition. -/
def succAcquireAt (s0 : Bool) (acts : List MemAction) (i : Nat) : Prop :=
  acts.get? i = some MemAction.cas_acquire ∧ stateAt s0 acts i = UNLOCKED

/-- Program counter of a thread executing the body of `try_lock`:
about to load, load saw UNLOCKED and the CAS is pending, or returned with
result `r`. -/
inductive TryPC where
  | start
  | casPending
  | done (r : Bool)
deriving DecidableEq, Repr, Fintype

/-- One atomic step of a thread executing `try_lock`, given the current cell
value; returns the new program counter and the new cell value.  From `start`
the load runs: seeing LOCKED returns false at once (short-circuit), seeing
UNLOCKED moves to the CAS.  From `casPending` the CAS runs and its success
flag is returned. -/
def tryStep : TryPC → Bool → TryPC × Bool
  | TryPC.start, s => if s then (TryPC.done false, s) else (TryPC.casPending, s)
  | TryPC.casPending, s =>
      let cas := compare_exchange_strong s UNLOCKED LOCKED
      (TryPC.done cas.1, cas.2)
  | TryPC.done r, s => (TryPC.done r, s)

/-- Configuration of two threads racing `try_lock` on one shared cell:
(cell value, thread one, thread two). -/
def RaceConfig : Type := Bool × TryPC × TryPC

instance : DecidableEq RaceConfig := by
  unfold RaceConfig
  infer_instance

instance : Fintype RaceConfig := by
  unfold RaceConfig
  infer_instance

/-- Scheduler step: `who = true` lets thread one take its next atomic step,
`who = false` lets thread two. -/
def raceStep (c : RaceConfig) (who : Bool) : RaceConfig :=
  if who then
    let st := tryStep c.2.1 c.1
    (st.2, st.1, c.2.2)
  else
    let st := tryStep c.2.2 c.1
    (st.2, c.2.1, st.1)

/-- Initial configuration: cell UNLOCKED, both threads about to run
`try_lock`. -/
def raceInit : RaceConfig := (UNLOCKED, TryPC.start, TryPC.start)

/-- Run the two-thread race under schedule `sched` from the initial
configuration. -/
def raceRun (sched : List Bool) : RaceConfig :=
  sched.foldl raceStep raceInit

/-- Thread has returned true. -/
def isDoneTrue : TryPC → Bool
  | TryPC.done true => true
  | _ => false

/-- Thread has returned false. -/
def isDoneFalse : TryPC → Bool
  | TryPC.done false => true
  | _ => false

/-- Invariant of the race: the cell is LOCKED exactly when some thread has
already returned true, the two threads never both return true, and a thread
returns false only once the cell is LOCKED. -/
def raceInv (c : RaceConfig) : Bool :=
  (c.1 == (isDoneTrue c.2.1 || isDoneTrue c.2.2)) &&
  !(isDoneTrue c.2.1 && isDoneTrue c.2.2) &&
  (!(isDoneFalse c.2.1) || c.1) &&
  (!(isDoneFalse c.2.2) || c.1)

theorem raceInv_step : ∀ c : RaceConfig, ∀ who : Bool,
    raceInv c = true → raceInv (raceStep c who) = true := by decide

theorem raceInv_foldl (sched : List Bool) :
    ∀ c : RaceConfig, raceInv c = true → raceInv (sched.foldl raceStep c) = true := by
  induction sched with
  | nil => exact fun c h => h
  | cons who t ih => exact fun c h => ih (raceStep c who) (raceInv_step c who h)

/-- Once the cell is LOCKED, a trace segment containing no `store_unlock`
leaves it LOCKED: loads do not write and the acquire CAS fails on LOCKED. -/
theorem foldl_locked_of_no_unlock (acts : List MemAction)
    (h : ∀ a ∈ acts, a ≠ MemAction.store_unlock) :
    acts.foldl applyAction LOCKED = LOCKED := by
  induction acts with
  | nil => rfl
  | cons a t ih =>
    have ha := h a (List.mem_cons_self a t)
    have ht : ∀ b ∈ t, b ≠ MemAction.store_unlock :=
      fun b hb => h b (List.mem_cons_of_mem a hb)
    cases a with
    | load => simpa [applyAction] using ih ht
    | cas_acquire =>
        simpa [applyAction, compare_exchange_strong, UNLOCKED, LOCKED] using ih ht
    | store_unlock => exact absurd rfl ha

/-- Between two successful acquire transitions of the cell there is a release
store: after the first successful CAS the cell is LOCKED, and only
`store_unlock` can make it UNLOCKED again for the second CAS to win. -/
theorem acquire_needs_release (s0 : Bool) (acts : List MemAction) (i j : Nat)
    (hi : succAcquireAt s0 acts i) (hj : succAcquireAt s0 acts j) (hij : i < j) :
    ∃ k, i < k ∧ k < j ∧ acts.get? k = some MemAction.store_unlock := by
  by_contra hcon
  push_neg at hcon
  have h1 : stateAt s0 acts (i + 1) = LOCKED := by
    unfold stateAt
    have hi1 : acts[i]? = some MemAction.cas_acquire := by
      rw [← List.get?_eq_getElem?]
      exact hi.1
    rw [List.take_succ, hi1, List.foldl_append]
    have h0 : (acts.take i).foldl applyAction s0 = UNLOCKED := hi.2
    simp [h0, applyAction, compare_exchange_strong, UNLOCKED, LOCKED]
  have hdecomp : acts.take j = acts.take (i + 1) ++ (acts.drop (i + 1)).take (j - (i + 1)) := by
    rw [← List.take_add]
    congr 1
    omega
  have hnostore : ∀ a ∈ (acts.drop (i + 1)).take (j - (i + 1)),
      a ≠ MemAction.store_unlock := by
    intro a ha hstore
    subst hstore
    obtain ⟨m, hget⟩ := List.mem_iff_get?.mp ha
    have hmlen : m < ((acts.drop (i + 1)).take (j - (i + 1))).length := by
      by_contra hge
      rw [List.get?_eq_none.mpr (Nat.le_of_not_lt hge)] at hget
      exact Option.noConfusion hget
    have hmlt : m < j - (i + 1) := by
      have := hmlen
      rw [List.length_take] at this
      omega
    rw [List.get?_take hmlt, List.get?_drop] at hget
    exact hcon (i + 1 + m) (by omega) (by omega) hget
  have hj2 : stateAt s0 acts j = LOCKED := by
    unfold stateAt
    rw [hdecomp, List.foldl_append]
    unfold stateAt at h1
    rw [h1]
    exact foldl_locked_of_no_unlock _ hnostore
  have := hj.2
  rw [hj2] at this
  exact Bool.noConfusion this

/-- Program counter of a thread executing the body of `wait`: still in the
spin loop (about to load) or returned from the method. -/
inductive WaitPC where
  | spin
  | finished
deriving DecidableEq, Repr

/-- One atomic step of a thread executing `wait`.  The loop body only loads
the cell: a load seeing LOCKED yields and keeps spinning, a load seeing
UNLOCKED exits the loop.  The returned cell value is the loaded one — the
body contains no store and no CAS. -/
def waitStep : WaitPC → Bool → WaitPC × Bool
  | WaitPC.spin, s => if s then (WaitPC.spin, s) else (WaitPC.finished, s)
  | WaitPC.finished, s => (WaitPC.finished, s)

/-- System of one thread running `wait` interleaved with an arbitrary
environment: a schedule entry `none` lets the wait thread take its next
atomic step, `some a` lets the environment perform the access `a`. -/
def waitSysStep (c : Bool × WaitPC) (ev : Option MemAction) : Bool × WaitPC :=
  match ev with
  | none => ((waitStep c.2 c.1).2, (waitStep c.2 c.1).1)
  | some a => (applyAction c.1 a, c.2)

/-- Run the wait-thread system under a schedule. -/
def waitSysRun (sched : List (Option MemAction)) (c : Bool × WaitPC) : Bool × WaitPC :=
  sched.foldl waitSysStep c

/-- Program counter of a thread executing the body of `lock`: at the top of
the loop (about to load), load saw UNLOCKED and the CAS is pending, or the
method has returned. -/
inductive LockPC where
  | start
  | casPending
  | acquired
deriving DecidableEq, Repr, Fintype

/-- One atomic step of a thread executing `lock`, given the current cell
value: from `start` the load runs (LOCKED: yield and retry; UNLOCKED: go to
the CAS); from `casPending` the CAS runs, returning from the method on
success and retrying the loop on failure. -/
def lockStep : LockPC → Bool → LockPC × Bool
  | LockPC.start, s => if s then (LockPC.start, s) else (LockPC.casPending, s)
  | LockPC.casPending, s =>
      let cas := compare_exchange_strong s UNLOCKED LOCKED
      if cas.1 then (LockPC.acquired, cas.2) else (LockPC.start, cas.2)
  | LockPC.acquired, s => (LockPC.acquired, s)

/-- Unfolding lemma for `lockFuel`: with fuel left, an iteration on a held
lock spins, and an iteration on a free lock wins its CAS and returns the
held lock. -/
theorem lockFuel_succ (n : Nat) (l : AtomicLock) :
    AtomicLock.lockFuel (n + 1) l =
      if l.ThisLock then AtomicLock.lockFuel n l else some ⟨LOCKED⟩ := by
  obtain ⟨b⟩ := l
  cases b <;> rfl

/-- C9: construction produces a lock in the FREE (UNLOCKED) state before any
operation is applied. -/
theorem construct_state_free : AtomicLock.construct.ThisLock = UNLOCKED := rfl

/-- C2: on a lock whose state is FREE, `try_lock` returns true and leaves the
state HELD. -/
theorem try_lock_free_succeeds (l : AtomicLock) (h : l.ThisLock = UNLOCKED) :
    l.try_lock = (true, ⟨LOCKED⟩) := by
  unfold AtomicLock.try_lock
  rw [h]
  rfl

theorem try_lock_free_succeeds_witness :
    AtomicLock.construct.ThisLock = UNLOCKED ∧
      AtomicLock.construct.try_lock = (true, ⟨LOCKED⟩) :=
  ⟨rfl, try_lock_free_succeeds AtomicLock.construct rfl⟩

/-- C3: on a lock whose state is HELD, `try_lock` returns false — a boolean
result, not an error — and leaves the lock unchanged, performing no retry. -/
theorem try_lock_held_fails (l : AtomicLock) (h : l.ThisLock = LOCKED) :
    l.try_lock = (false, l) := by
  unfold AtomicLock.try_lock
  rw [h]
  rfl

theorem try_lock_held_fails_witness :
    (⟨LOCKED⟩ : AtomicLock).ThisLock = LOCKED ∧
      (⟨LOCKED⟩ : AtomicLock).try_lock = (false, ⟨LOCKED⟩) :=
  ⟨rfl, try_lock_held_fails ⟨LOCKED⟩ rfl⟩

/-- C5: `unlock` unconditionally stores FREE — from every prior state the
state afterwards is FREE, with no check that the caller held the lock — and
the destructor performs the same forced reset to FREE. -/
theorem unlock_unconditionally_frees :
    ∀ l : AtomicLock,
      (AtomicLock.unlock l).ThisLock = UNLOCKED ∧
        (AtomicLock.destructor l).ThisLock = UNLOCKED :=
  fun _ => ⟨rfl, rfl⟩

/-- C10: `unlock` is idempotent on the state: releasing twice yields the same
state as releasing once, and releasing an already-FREE lock leaves it FREE. -/
theorem unlock_idempotent :
    ∀ l : AtomicLock,
      AtomicLock.unlock (AtomicLock.unlock l) = AtomicLock.unlock l ∧
        AtomicLock.unlock ⟨UNLOCKED⟩ = ⟨UNLOCKED⟩ :=
  fun _ => ⟨rfl, rfl⟩

/-- C4: `lock` returns only once the caller holds the lock: every return of
`lockFuel` yields a HELD lock; a thread reaches the `acquired` exit of the
loop only through its own successful CAS from UNLOCKED, leaving the cell
LOCKED; and on a FREE lock with no contention it returns at once, HELD. -/
theorem lock_returns_only_held :
    (∀ (fuel : Nat) (l l2 : AtomicLock),
        AtomicLock.lockFuel fuel l = some l2 → l2.ThisLock = LOCKED) ∧
    (∀ (pc : LockPC) (s : Bool), pc ≠ LockPC.acquired →
        (lockStep pc s).1 = LockPC.acquired →
        pc = LockPC.casPending ∧ s = UNLOCKED ∧ (lockStep pc s).2 = LOCKED) ∧
    AtomicLock.lockFuel 1 AtomicLock.construct = some ⟨LOCKED⟩ := by
  refine ⟨?_, by decide, rfl⟩
  intro fuel
  induction fuel with
  | zero => exact fun l l2 h => Option.noConfusion h
  | succ n ih =>
    intro l l2 h
    rw [lockFuel_succ] at h
    by_cases hb : l.ThisLock = true
    · rw [if_pos hb] at h
      exact ih l l2 h
    · rw [if_neg hb] at h
      rw [← Option.some.inj h]

theorem lock_returns_only_held_witness :
    (⟨LOCKED⟩ : AtomicLock).ThisLock = LOCKED ∧
      (LockPC.casPending = LockPC.casPending ∧ UNLOCKED = UNLOCKED ∧
        (lockStep LockPC.casPending UNLOCKED).2 = LOCKED) :=
  ⟨lock_returns_only_held.1 1 AtomicLock.construct ⟨LOCKED⟩ rfl,
   lock_returns_only_held.2.1 LockPC.casPending UNLOCKED (by decide) rfl⟩

/-- C6: round trip from construction: acquire, release, acquire, release all
complete with no other threads, and after each release the state is FREE, so
the lock is reusable. -/
theorem round_trip_reusable :
    AtomicLock.construct.ThisLock = UNLOCKED ∧
    AtomicLock.lockFuel 1 AtomicLock.construct = some ⟨LOCKED⟩ ∧
    (AtomicLock.unlock ⟨LOCKED⟩).ThisLock = UNLOCKED ∧
    AtomicLock.lockFuel 1 (AtomicLock.unlock ⟨LOCKED⟩) = some ⟨LOCKED⟩ ∧
    (AtomicLock.unlock ⟨LOCKED⟩).ThisLock = UNLOCKED := by
  decide

/-- C8: `try_lock` never spins and never blocks: starting the body, after at
most two atomic steps — the one load and at most one CAS — the thread has
returned, whatever cell values contention makes it observe. -/
theorem try_lock_bounded_steps :
    ∀ s1 s2 : Bool, ∃ r : Bool,
      (tryStep (tryStep TryPC.start s1).1 s2).1 = TryPC.done r := by
  decide

/-- C7: `wait` never mutates the lock state: under every interleaving of the
wait thread with arbitrary environment accesses, the final cell value equals
the fold of the environment accesses alone, so the state after `wait` is
whatever the other threads made it; `wait` confers no exclusivity. -/
theorem wait_never_mutates :
    ∀ (sched : List (Option MemAction)) (s : Bool) (pc : WaitPC),
      (waitSysRun sched (s, pc)).1 = (sched.filterMap id).foldl applyAction s := by
  intro sched
  induction sched with
  | nil => intro s pc; rfl
  | cons ev t ih =>
    intro s pc
    cases ev with
    | none =>
        have h2 : waitSysStep (s, pc) none = (s, (waitStep pc s).1) := by
          cases pc <;> cases s <;> rfl
        show (waitSysRun t (waitSysStep (s, pc) none)).1 = _
        rw [h2]
        simpa using ih s (waitStep pc s).1
    | some a =>
        show (waitSysRun t (waitSysStep (s, pc) (some a))).1 = _
        simpa [waitSysStep] using ih (applyAction s a) pc

/-- C1: mutual exclusion.  First, in every schedule of two threads racing
`try_lock` on an initially FREE cell, if both threads have returned then
exactly one returned true.  Second, in every trace of atomic accesses to the
cell, between any two successful FREE to HELD acquire transitions (the CAS
used by `lock` and `try_lock`) there is a release store. -/
theorem try_lock_mutual_exclusion :
    (∀ (sched : List Bool) (s : Bool) (r1 r2 : Bool),
        raceRun sched = (s, TryPC.done r1, TryPC.done r2) → r1 ≠ r2) ∧
    (∀ (s0 : Bool) (acts : List MemAction) (i j : Nat),
        succAcquireAt s0 acts i → succAcquireAt s0 acts j → i < j →
        ∃ k, i < k ∧ k < j ∧ acts.get? k = some MemAction.store_unlock) := by
  constructor
  · intro sched s r1 r2 h
    have hinv := raceInv_foldl sched raceInit (by decide)
    rw [show sched.foldl raceStep raceInit = raceRun sched from rfl, h] at hinv
    cases r1 <;> cases r2 <;>
      simp_all [raceInv, isDoneTrue, isDoneFalse, LOCKED, UNLOCKED]
  · exact acquire_needs_release

theorem try_lock_mutual_exclusion_witness :
    ((true : Bool) ≠ false) ∧
    (∃ k, 0 < k ∧ k < 2 ∧
      [MemAction.cas_acquire, MemAction.store_unlock,
        MemAction.cas_acquire].get? k = some MemAction.store_unlock) :=
  ⟨try_lock_mutual_exclusion.1 [true, true, false, false] LOCKED true false
      (by decide),
   try_lock_mutual_exclusion.2 UNLOCKED
      [MemAction.cas_acquire, MemAction.store_unlock, MemAction.cas_acquire]
      0 2 ⟨rfl, rfl⟩ ⟨rfl, rfl⟩ (by decide)⟩
